import Mathlib

/-!
Verification of the paste-compositing engine of `itkPasteImageFilter.hxx`
(Modules/Filtering/ImageGrid/include/itkPasteImageFilter.hxx).

The engine composites a source patch into a destination grid: per thread
region it classifies the overlap of the placement region against the thread
region and issues bulk copy calls from the destination and/or the source
image into the output image.  We embed the region algebra, the copy trace
issued by `ThreadedGenerateData`, its functional effect on the output grid,
and the demand propagation of `GenerateInputRequestedRegion`.
-/

namespace PasteFilter

/-- An N-dimensional grid index: one signed integer coordinate per dimension
(`itk::Index`). -/
abbrev Index (n : Nat) := Fin n → Int

/-- An axis-aligned region of index space: origin (`m_Index`) plus size per
dimension (`itk::ImageRegion`).  Sizes are carried as integers; a region with
a non-positive size in some dimension contains no index. -/
structure Region (n : Nat) where
  index : Index n
  size : Fin n → Int

instance {n : Nat} : DecidableEq (Index n) := fun p q =>
  decidable_of_iff (∀ d, p d = q d) ⟨funext, fun h d => congrFun h d⟩

instance {n : Nat} : DecidableEq (Region n) := fun a b =>
  decidable_of_iff (a.index = b.index ∧ a.size = b.size)
    (by
      constructor
      · rintro ⟨h1, h2⟩
        cases a
        cases b
        simp_all
      · rintro rfl
        exact ⟨rfl, rfl⟩)

/-- Membership of an index in a region: componentwise
`index d ≤ p d < index d + size d`. -/
def memRegion {n : Nat} (r : Region n) (p : Index n) : Prop :=
  ∀ d, r.index d ≤ p d ∧ p d < r.index d + r.size d

instance {n : Nat} (r : Region n) (p : Index n) : Decidable (memRegion r p) := by
  unfold memRegion
  infer_instance

/-- Length of the overlap of two regions along dimension `d`:
`min(aEnd, bEnd) - max(aOrigin, bOrigin)`. -/
def overlapLen {n : Nat} (a b : Region n) (d : Fin n) : Int :=
  min (a.index d + a.size d) (b.index d + b.size d) - max (a.index d) (b.index d)

/-- Modelled from the spec: `ImageRegion::Crop` (itkImageRegion, not present
under src/) — the intersection of two regions, or `none` if any dimension's
overlap length is ≤ 0; the intersection origin is the per-dimension maximum
of the two origins and its size is the overlap length. -/
def crop {n : Nat} (a b : Region n) : Option (Region n) :=
  if ∀ d, 0 < overlapLen a b d then
    some { index := fun d => max (a.index d) (b.index d), size := fun d => overlapLen a b d }
  else
    none

/-- `translate r delta` shifts the origin of `r` by `delta`, size unchanged. -/
def translate {n : Nat} (r : Region n) (delta : Index n) : Region n :=
  { index := fun d => r.index d + delta d, size := r.size }

/-- A grid of samples, modelled by its value at every index. -/
def Image (n : Nat) (T : Type) := Index n → T

/-- The placement configuration of the filter: `m_DestinationIndex` and
`m_SourceRegion`. -/
structure PasteSpec (n : Nat) where
  destinationIndex : Index n
  sourceRegion : Region n

/-- `sourceRegionInDestinationImage` of `ThreadedGenerateData`: the region of
the destination index space covered by the pasted patch —
index `m_DestinationIndex`, size `m_SourceRegion.GetSize()`. -/
def placementInDestSpace {n : Nat} (m : PasteSpec n) : Region n :=
  { index := m.destinationIndex, size := m.sourceRegion.size }

/-- `originalOffsetFromDestinationToSource` of `ThreadedGenerateData`:
`m_SourceRegion.GetIndex() - m_DestinationIndex`. -/
def delta {n : Nat} (m : PasteSpec n) : Index n :=
  fun d => m.sourceRegion.index d - m.destinationIndex d

/-- A default-constructed region: index and size filled with zeros (the state
of `sourceRegionInSourceImageCropped` when `useSource` is false). -/
def zeroRegion (n : Nat) : Region n :=
  { index := fun _ => 0, size := fun _ => 0 }

/-- Which input image a bulk copy reads from. -/
inductive CopySource where
  | dest
  | source
deriving DecidableEq

/-- One `ImageAlgorithm::Copy(inImage, outputPtr, srcRegion, dstRegion)` call
issued by the compositor. -/
structure CopyOp (n : Nat) where
  src : CopySource
  srcRegion : Region n
  dstRegion : Region n
deriving DecidableEq

/-- The sequence of `ImageAlgorithm::Copy` calls issued by
`ThreadedGenerateData` for one thread region, following the source's control
flow: `useSource` is whether `sourceRegionInDestinationImage.Crop` of the
thread region succeeds, `useOnlySource` is whether the cropped region equals
the thread region, and the three-way branch at the end issues the copies.
When `useSource` is false and in-place is enabled, control reaches the third
branch and issues a copy whose regions are the default-constructed
(zero-index, zero-size) regions, exactly as the source does. -/
def threadedCopies {n : Nat} (m : PasteSpec n) (inPlaceEligible : Bool)
    (outputRegionForThread : Region n) : List (CopyOp n) :=
  match crop (placementInDestSpace m) outputRegionForThread with
  | none =>
      if inPlaceEligible then
        [{ src := CopySource.source, srcRegion := zeroRegion n, dstRegion := zeroRegion n }]
      else
        [{ src := CopySource.dest, srcRegion := outputRegionForThread,
           dstRegion := outputRegionForThread }]
  | some cropped =>
      if cropped = outputRegionForThread then
        [{ src := CopySource.source, srcRegion := translate cropped (delta m),
           dstRegion := outputRegionForThread }]
      else
        (if inPlaceEligible then [] else
          [{ src := CopySource.dest, srcRegion := outputRegionForThread,
             dstRegion := outputRegionForThread }])
        ++ [{ src := CopySource.source, srcRegion := translate cropped (delta m),
              dstRegion := cropped }]

/-- The effect of one `ImageAlgorithm::Copy(srcImg, out, srcRegion, dstRegion)`
call: every index of `dstRegion` receives the source value at the
correspondingly shifted index; all other indices keep the output's value. -/
def copyImage {n : Nat} {T : Type} (srcImg : Image n T) (out : Image n T)
    (srcRegion dstRegion : Region n) : Image n T :=
  fun p =>
    if memRegion dstRegion p then
      srcImg (fun d => p d - dstRegion.index d + srcRegion.index d)
    else
      out p

/-- Apply one issued copy to the output grid, reading from the destination or
the source image as the op records. -/
def applyCopy {n : Nat} {T : Type} (destImg srcImg : Image n T) (out : Image n T)
    (op : CopyOp n) : Image n T :=
  match op.src with
  | CopySource.dest => copyImage destImg out op.srcRegion op.dstRegion
  | CopySource.source => copyImage srcImg out op.srcRegion op.dstRegion

/-- `ThreadedGenerateData` for one thread region: the output grid after the
issued copies are applied in order. -/
def threadedGenerateData {n : Nat} {T : Type} (m : PasteSpec n) (inPlaceEligible : Bool)
    (destImg srcImg : Image n T) (out : Image n T) (outputRegionForThread : Region n) :
    Image n T :=
  (threadedCopies m inPlaceEligible outputRegionForThread).foldl (applyCopy destImg srcImg) out

/-- Running the compositor once per partition, in list order, over a shared
output grid (the partitions write disjoint cells, so this models any
execution order). -/
def compositeAll {n : Nat} {T : Type} (m : PasteSpec n) (inPlaceEligible : Bool)
    (destImg srcImg : Image n T) (out : Image n T) (parts : List (Region n)) : Image n T :=
  parts.foldl (fun o P => threadedGenerateData m inPlaceEligible destImg srcImg o P) out

/-- Two regions are disjoint when no index lies in both. -/
def regionsDisjoint {n : Nat} (a b : Region n) : Prop :=
  ∀ p, ¬ (memRegion a p ∧ memRegion b p)

/-- `parts` is a covering of `R`: an index lies in `R` exactly when it lies in
some listed partition. -/
def covers {n : Nat} (parts : List (Region n)) (R : Region n) : Prop :=
  ∀ p, memRegion R p ↔ ∃ P ∈ parts, memRegion P p

/-- The externally observable pipeline state of a grid: the region a consumer
has requested from it. -/
structure GridState (n : Nat) where
  requestedRegion : Region n

/-- `GenerateInputRequestedRegion`: sets the source input's requested region
to `m_SourceRegion` and the destination input's requested region to the
output's requested region, returning the updated (destination, source)
states. -/
def generateInputRequestedRegion {n : Nat} (m : PasteSpec n)
    (dest source output : GridState n) : GridState n × GridState n :=
  ({ dest with requestedRegion := output.requestedRegion },
   { source with requestedRegion := m.sourceRegion })

/-- `inner` fits inside `outer`: componentwise, `outer` starts no later and
ends no earlier than `inner`. -/
def fitsIn {n : Nat} (inner outer : Region n) : Prop :=
  ∀ d, outer.index d ≤ inner.index d ∧
    inner.index d + inner.size d ≤ outer.index d + outer.size d

instance {n : Nat} (inner outer : Region n) : Decidable (fitsIn inner outer) := by
  unfold fitsIn
  infer_instance

/-- The error raised when a placement does not fit the participating grids. -/
inductive PipelineError where
  | invalidPlacement
deriving DecidableEq

/-- Modelled from the spec: the pipeline's placement validation
(`VerifyRequestedRegion` of the demand-driven pipeline machinery, not present
under src/) — the placement is valid when the source region fits inside the
source grid's valid region, the placement region fits inside the destination
grid's valid region, and the requested output fits inside the destination
grid's valid region. -/
def validPlacement {n : Nat} (requestedOutput : Region n) (m : PasteSpec n)
    (sourceValid destValid : Region n) : Prop :=
  fitsIn m.sourceRegion sourceValid ∧
  fitsIn (placementInDestSpace m) destValid ∧
  fitsIn requestedOutput destValid

instance {n : Nat} (requestedOutput : Region n) (m : PasteSpec n)
    (sourceValid destValid : Region n) :
    Decidable (validPlacement requestedOutput m sourceValid destValid) := by
  unfold validPlacement
  infer_instance

/-- Modelled from the spec: demand propagation with validation — on success
it returns the destination request (the requested output region) and the
source request (the full source region); otherwise it fails with
`InvalidPlacementError`. -/
def propagateDemand {n : Nat} (requestedOutput : Region n) (m : PasteSpec n)
    (sourceValid destValid : Region n) : Except PipelineError (Region n × Region n) :=
  if validPlacement requestedOutput m sourceValid destValid then
    Except.ok (requestedOutput, m.sourceRegion)
  else
    Except.error PipelineError.invalidPlacement

/-- Modelled from the spec: one full invocation — demand propagation runs
first and partition work is dispatched only when it succeeds. -/
def runInvocation {n : Nat} {T : Type} (requestedOutput : Region n) (m : PasteSpec n)
    (sourceValid destValid : Region n) (inPlaceEligible : Bool)
    (destImg srcImg out : Image n T) (parts : List (Region n)) :
    Except PipelineError (Image n T) :=
  match propagateDemand requestedOutput m sourceValid destValid with
  | Except.error e => Except.error e
  | Except.ok _ => Except.ok (compositeAll m inPlaceEligible destImg srcImg out parts)

/-- The configuration state of the filter touched by its constructor. -/
structure PasteFilterState (n : Nat) where
  numberOfRequiredInputs : Nat
  inPlace : Bool
  destinationIndex : Index n
  sourceRegion : Region n

/-- The `PasteImageFilter` constructor: requires two inputs
(`SetNumberOfRequiredInputs(2)`), disables in-place execution (`InPlaceOff`),
fills `m_DestinationIndex` with zeros, and leaves `m_SourceRegion` at its
default-constructed value (zero index, zero size). -/
def mkPasteImageFilter (n : Nat) : PasteFilterState n :=
  { numberOfRequiredInputs := 2
    inPlace := false
    destinationIndex := fun _ => 0
    sourceRegion := zeroRegion n }

/-! ### Concrete fixtures for witnesses (the spec's 2-D scenarios) -/

/-- A 2-D index with the two given coordinates. -/
def ix2 (a b : Int) : Index 2 :=
  fun d => if d = 0 then a else b

/-- A 2-D region from origin and size coordinates. -/
def rg2 (ax ay sx sy : Int) : Region 2 :=
  { index := ix2 ax ay, size := ix2 sx sy }

/-- The spec's first scenario: source region ((0,0),(4,4)) pasted at
destination index (3,3). -/
def specEx : PasteSpec 2 :=
  { destinationIndex := ix2 3 3, sourceRegion := rg2 0 0 4 4 }

/-- A destination grid holding 0 everywhere. -/
def destEx : Image 2 Int := fun _ => 0

/-- A source grid holding 1 everywhere. -/
def srcEx : Image 2 Int := fun _ => 1

/-- The requested output region ((0,0),(10,10)). -/
def regEx : Region 2 := rg2 0 0 10 10

/-- The four (5,5) quadrant partitions of the requested output region. -/
def quadEx : List (Region 2) :=
  [rg2 0 0 5 5, rg2 5 0 5 5, rg2 0 5 5 5, rg2 5 5 5 5]

/-- A placement that misses ((0,0),(10,10)) entirely: destination index
(20,20). -/
def specFar : PasteSpec 2 :=
  { destinationIndex := ix2 20 20, sourceRegion := rg2 0 0 4 4 }

/-- The spec's invalid scenario: destination index (8,8) with a (4,4) source
region, so the placement extends to (12,12). -/
def specBad : PasteSpec 2 :=
  { destinationIndex := ix2 8 8, sourceRegion := rg2 0 0 4 4 }

/-- The valid region of the (4,4) source grid. -/
def srcValidEx : Region 2 := rg2 0 0 4 4

/-! ### Helper lemmas about the region algebra -/

theorem crop_eq_none_iff {n : Nat} (a b : Region n) :
    crop a b = none ↔ ¬ ∀ d, 0 < overlapLen a b d := by
  unfold crop
  split
  · rename_i h
    simp [h]
  · rename_i h
    simp [h]

theorem crop_eq_none_exists {n : Nat} {a b : Region n} (h : crop a b = none) :
    ∃ d, overlapLen a b d ≤ 0 := by
  have h2 := (crop_eq_none_iff a b).mp h
  push_neg at h2
  obtain ⟨d, hd⟩ := h2
  exact ⟨d, by omega⟩

theorem crop_none_not_mem {n : Nat} {a b : Region n} (h : crop a b = none) :
    ∀ p, ¬ (memRegion a p ∧ memRegion b p) := by
  intro p ⟨ha, hb⟩
  obtain ⟨d, hd⟩ := crop_eq_none_exists h
  have h1 := ha d
  have h2 := hb d
  unfold overlapLen at hd
  omega

theorem crop_eq_some_mem {n : Nat} {a b c : Region n} (h : crop a b = some c)
    (p : Index n) : memRegion c p ↔ (memRegion a p ∧ memRegion b p) := by
  unfold crop at h
  split at h
  · rename_i hall
    injection h with h
    subst h
    constructor
    · intro hc
      refine ⟨fun d => ?_, fun d => ?_⟩ <;>
        · have h1 := hc d
          simp only [memRegion, overlapLen] at h1 ⊢
          omega
    · rintro ⟨ha, hb⟩ d
      have h1 := ha d
      have h2 := hb d
      simp only [memRegion, overlapLen] at h1 h2 ⊢
      omega
  · exact absurd h (by simp)

theorem crop_eq_some_of {n : Nat} {a b r : Region n}
    (h1 : ∀ d, 0 < overlapLen a b d)
    (h2 : ∀ d, r.index d = max (a.index d) (b.index d))
    (h3 : ∀ d, r.size d = overlapLen a b d) :
    crop a b = some r := by
  rw [crop, if_pos h1]
  cases r
  simp only [Option.some.injEq, Region.mk.injEq]
  constructor <;> funext d
  · exact (h2 d).symm
  · exact (h3 d).symm

theorem crop_none_pos_dim {n : Nat} {a b : Region n} (h : crop a b = none) :
    Nonempty (Fin n) := by
  obtain ⟨d, _⟩ := crop_eq_none_exists h
  exact ⟨d⟩

theorem not_mem_zeroRegion {n : Nat} (d : Fin n) (p : Index n) :
    ¬ memRegion (zeroRegion n) p := by
  intro h
  have h1 := h d
  simp only [zeroRegion] at h1
  omega

theorem disjoint_of_crop_none {n : Nat} {a b : Region n} (h : crop a b = none) :
    regionsDisjoint a b :=
  fun p => crop_none_not_mem h p

/-! ### Pointwise evaluation of one thread's compositing -/

/-- The value the compositor establishes at `p` for a thread region `reg`:
inside the placement the source value at the shifted index, elsewhere in
`reg` the destination value (or the pre-existing output value when running
in place), and outside `reg` the output is untouched. -/
theorem threadedGenerateData_apply {n : Nat} {T : Type} (m : PasteSpec n)
    (inPlaceEligible : Bool) (destImg srcImg out : Image n T) (reg : Region n)
    (p : Index n) :
    threadedGenerateData m inPlaceEligible destImg srcImg out reg p =
      if memRegion reg p then
        if memRegion (placementInDestSpace m) p then
          srcImg (fun d => p d + delta m d)
        else if inPlaceEligible then out p else destImg p
      else out p := by
  unfold threadedGenerateData threadedCopies
  rcases hcrop : crop (placementInDestSpace m) reg with _ | c
  · -- NoOverlap
    obtain ⟨d0⟩ := crop_none_pos_dim hcrop
    have hno := crop_none_not_mem hcrop
    cases inPlaceEligible with
    | true =>
      simp only [eq_self_iff_true, if_true, List.foldl_cons, List.foldl_nil, applyCopy,
        copyImage, if_neg (not_mem_zeroRegion d0 p)]
      by_cases hp : memRegion reg p
      · rw [if_pos hp, if_neg (fun hpl => hno p ⟨hpl, hp⟩)]
      · rw [if_neg hp]
    | false =>
      simp only [Bool.false_eq_true, if_false, List.foldl_cons, List.foldl_nil, applyCopy,
        copyImage]
      by_cases hp : memRegion reg p
      · rw [if_pos hp, if_pos hp, if_neg (fun hpl => hno p ⟨hpl, hp⟩)]
        congr 1
        funext d
        ring
      · rw [if_neg hp, if_neg hp]
  · -- the placement overlaps this thread region
    have hmem := crop_eq_some_mem hcrop
    by_cases hceq : c = reg
    · simp only [if_pos hceq, List.foldl_cons, List.foldl_nil, applyCopy, copyImage]
      by_cases hp : memRegion reg p
      · have hpl : memRegion (placementInDestSpace m) p :=
          ((hmem p).mp (hceq ▸ hp)).1
        rw [if_pos hp, if_pos hp, if_pos hpl]
        subst hceq
        congr 1
        funext d
        simp only [translate, delta]
        ring
      · rw [if_neg hp, if_neg hp]
    · simp only [if_neg hceq]
      cases inPlaceEligible with
      | true =>
        simp only [eq_self_iff_true, if_true, List.nil_append, List.foldl_cons,
          List.foldl_nil, applyCopy, copyImage]
        by_cases hpc : memRegion c p
        · have hp : memRegion reg p := ((hmem p).mp hpc).2
          have hpl : memRegion (placementInDestSpace m) p := ((hmem p).mp hpc).1
          rw [if_pos hpc, if_pos hp, if_pos hpl]
          congr 1
          funext d
          simp only [translate, delta]
          ring
        · rw [if_neg hpc]
          by_cases hp : memRegion reg p
          · have hpl : ¬ memRegion (placementInDestSpace m) p :=
              fun hpl => hpc ((hmem p).mpr ⟨hpl, hp⟩)
            rw [if_pos hp, if_neg hpl]
          · rw [if_neg hp]
      | false =>
        simp only [Bool.false_eq_true, if_false, List.cons_append, List.nil_append,
          List.foldl_cons, List.foldl_nil, applyCopy, copyImage]
        by_cases hpc : memRegion c p
        · have hp : memRegion reg p := ((hmem p).mp hpc).2
          have hpl : memRegion (placementInDestSpace m) p := ((hmem p).mp hpc).1
          rw [if_pos hpc, if_pos hp, if_pos hpl]
          congr 1
          funext d
          simp only [translate, delta]
          ring
        · rw [if_neg hpc]
          by_cases hp : memRegion reg p
          · have hpl : ¬ memRegion (placementInDestSpace m) p :=
              fun hpl => hpc ((hmem p).mpr ⟨hpl, hp⟩)
            rw [if_pos hp, if_pos hp, if_neg hpl]
            congr 1
            funext d
            ring
          · rw [if_neg hp, if_neg hp]

/-- Evaluation of a whole invocation over a list of pairwise-disjoint
partitions: inside the placement the source value, inside some partition but
outside the placement the destination value (or the pre-existing output
value when in place), and outside all partitions the output is untouched. -/
theorem compositeAll_apply {n : Nat} {T : Type} (m : PasteSpec n)
    (inPlaceEligible : Bool) (destImg srcImg : Image n T) (parts : List (Region n))
    (out : Image n T) (hdisj : parts.Pairwise regionsDisjoint) (p : Index n) :
    compositeAll m inPlaceEligible destImg srcImg out parts p =
      if ∃ P ∈ parts, memRegion P p then
        if memRegion (placementInDestSpace m) p then
          srcImg (fun d => p d + delta m d)
        else if inPlaceEligible then out p else destImg p
      else out p := by
  induction parts generalizing out with
  | nil =>
    simp [compositeAll]
  | cons P rest ih =>
    rw [List.pairwise_cons] at hdisj
    have hstep : compositeAll m inPlaceEligible destImg srcImg out (P :: rest) =
        compositeAll m inPlaceEligible destImg srcImg
          (threadedGenerateData m inPlaceEligible destImg srcImg out P) rest := rfl
    rw [hstep, ih _ hdisj.2]
    by_cases hP : memRegion P p
    · have hrest : ¬ ∃ Q ∈ rest, memRegion Q p := by
        rintro ⟨Q, hQ, hQp⟩
        exact hdisj.1 Q hQ p ⟨hP, hQp⟩
      rw [if_neg hrest, threadedGenerateData_apply, if_pos hP,
        if_pos (show ∃ Q ∈ P :: rest, memRegion Q p from ⟨P, List.mem_cons_self P rest, hP⟩)]
    · have hout2 : threadedGenerateData m inPlaceEligible destImg srcImg out P p = out p := by
        rw [threadedGenerateData_apply, if_neg hP]
      by_cases hex : ∃ Q ∈ rest, memRegion Q p
      · obtain ⟨Q, hQ, hQp⟩ := hex
        rw [if_pos (show ∃ Q ∈ rest, memRegion Q p from ⟨Q, hQ, hQp⟩), hout2,
          if_pos (show ∃ Q ∈ P :: rest, memRegion Q p from
            ⟨Q, List.mem_cons_of_mem P hQ, hQp⟩)]
      · rw [if_neg hex, hout2, if_neg ?_]
        rintro ⟨Q, hQ, hQp⟩
        rcases List.mem_cons.mp hQ with rfl | hQr
        · exact hP hQp
        · exact hex ⟨Q, hQr, hQp⟩

/-! ### Helper facts about the concrete fixtures -/

theorem singleton_pairwise {n : Nat} (r : Region n) :
    List.Pairwise regionsDisjoint [r] :=
  List.Pairwise.cons (fun b hb => absurd hb (List.not_mem_nil b)) List.Pairwise.nil

theorem singleton_covers {n : Nat} (r : Region n) : covers [r] r := by
  intro p
  simp

theorem quadEx_pairwise : List.Pairwise regionsDisjoint quadEx := by
  have h : List.Pairwise (fun a b : Region 2 => crop a b = none) quadEx := by
    refine List.Pairwise.cons ?_ (List.Pairwise.cons ?_ (List.Pairwise.cons ?_
      (List.Pairwise.cons (fun b hb => absurd hb (List.not_mem_nil b))
        List.Pairwise.nil)))
    all_goals
      intro b hb
      fin_cases hb <;> decide
  exact h.imp disjoint_of_crop_none

theorem quadEx_covers : covers quadEx regEx := by
  intro p
  simp only [quadEx, regEx, rg2, ix2, memRegion, List.mem_cons, List.not_mem_nil,
    or_false, exists_eq_or_imp, exists_eq_left, Fin.forall_fin_two]
  simp only [Fin.isValue, one_ne_zero, reduceIte]
  omega

/-! ### Claim theorems -/

/-- C2 Crop correctness: for any two regions of any dimensionality, `crop`
returns none exactly when some dimension's overlap length
`min(aEnd, bEnd) - max(aOrigin, bOrigin)` is ≤ 0; otherwise it returns the
region whose origin is the per-dimension maximum of the two origins and
whose size per dimension is the overlap end minus that origin.  `crop` is a
pure function (a plain `def` with no state). -/
theorem crop_correct {n : Nat} (a b : Region n) :
    (crop a b = none ↔
      ∃ d, min (a.index d + a.size d) (b.index d + b.size d) -
        max (a.index d) (b.index d) ≤ 0) ∧
    ∀ r, crop a b = some r →
      (∀ d, r.index d = max (a.index d) (b.index d)) ∧
      (∀ d, r.size d =
        min (a.index d + a.size d) (b.index d + b.size d) - r.index d) := by
  by_cases h : ∀ d, 0 < overlapLen a b d
  · refine ⟨⟨fun hnone => ?_, fun ⟨d, hd⟩ => ?_⟩, fun r hr => ?_⟩
    · rw [crop, if_pos h] at hnone
      exact Option.noConfusion hnone
    · have := h d
      unfold overlapLen at this
      omega
    · rw [crop, if_pos h] at hr
      injection hr with hr
      subst hr
      exact ⟨fun d => rfl, fun d => rfl⟩
  · refine ⟨⟨fun _ => ?_, fun _ => ?_⟩, fun r hr => ?_⟩
    · push_neg at h
      obtain ⟨d, hd⟩ := h
      unfold overlapLen at hd
      exact ⟨d, by omega⟩
    · rw [crop, if_neg h]
    · rw [crop, if_neg h] at hr
      exact Option.noConfusion hr

/-- Witness for C2 at a concrete pair of overlapping 2-D regions. -/
theorem crop_correct_witness :
    crop (rg2 3 3 4 4) (rg2 0 0 5 5) = some (rg2 3 3 2 2) ∧
    (∀ d, (rg2 3 3 2 2).index d =
      max ((rg2 3 3 4 4).index d) ((rg2 0 0 5 5).index d)) ∧
    ∀ d, (rg2 3 3 2 2).size d =
      min ((rg2 3 3 4 4).index d + (rg2 3 3 4 4).size d)
        ((rg2 0 0 5 5).index d + (rg2 0 0 5 5).size d) - (rg2 3 3 2 2).index d :=
  ⟨crop_eq_some_of (by decide) (by decide) (by decide),
   ((crop_correct (rg2 3 3 4 4) (rg2 0 0 5 5)).2 (rg2 3 3 2 2)
     (crop_eq_some_of (by decide) (by decide) (by decide))).1,
   ((crop_correct (rg2 3 3 4 4) (rg2 0 0 5 5)).2 (rg2 3 3 2 2)
     (crop_eq_some_of (by decide) (by decide) (by decide))).2⟩

/-- C7 Demand propagation equalities: `GenerateInputRequestedRegion` sets the
destination request exactly to the output's requested region and the source
request exactly to the configured source region, independent of how much of
the source region intersects the requested output. -/
theorem demand_propagation_exact {n : Nat} (m : PasteSpec n)
    (dest source output : GridState n) :
    (generateInputRequestedRegion m dest source output).1.requestedRegion =
        output.requestedRegion ∧
    (generateInputRequestedRegion m dest source output).2.requestedRegion =
        m.sourceRegion :=
  ⟨rfl, rfl⟩

/-- C8 Placement validation: demand propagation fails with the invalid
placement error exactly when the source region does not fit the source
grid's valid region, or the placement region does not fit the destination
grid's valid region, or the requested output does not fit the destination
grid's valid region; and when it fails, the invocation dispatches no
partition work. -/
theorem placement_validation {n : Nat} {T : Type} (requestedOutput : Region n)
    (m : PasteSpec n) (sourceValid destValid : Region n) :
    (propagateDemand requestedOutput m sourceValid destValid =
        Except.error PipelineError.invalidPlacement ↔
      ¬ (fitsIn m.sourceRegion sourceValid ∧
         fitsIn (placementInDestSpace m) destValid ∧
         fitsIn requestedOutput destValid)) ∧
    ∀ (inPlaceEligible : Bool) (destImg srcImg out : Image n T)
      (parts : List (Region n)),
      propagateDemand requestedOutput m sourceValid destValid =
          Except.error PipelineError.invalidPlacement →
        runInvocation requestedOutput m sourceValid destValid inPlaceEligible
            destImg srcImg out parts =
          Except.error PipelineError.invalidPlacement := by
  constructor
  · unfold propagateDemand
    split
    · rename_i h
      exact ⟨fun hcon => Except.noConfusion hcon, fun hcon => absurd h hcon⟩
    · rename_i h
      exact ⟨fun _ => h, fun _ => rfl⟩
  · intro inPlaceEligible destImg srcImg out parts hprop
    unfold runInvocation
    rw [hprop]

/-- Witness for C8 at the spec's invalid scenario: destination index (8,8)
with a (4,4) source region on a (10,10) destination. -/
theorem placement_validation_witness :
    (¬ (fitsIn specBad.sourceRegion srcValidEx ∧
        fitsIn (placementInDestSpace specBad) regEx ∧
        fitsIn regEx regEx)) ∧
    propagateDemand regEx specBad srcValidEx regEx =
      Except.error PipelineError.invalidPlacement ∧
    runInvocation regEx specBad srcValidEx regEx false destEx srcEx destEx [regEx] =
      Except.error PipelineError.invalidPlacement := by
  have h := placement_validation (T := Int) regEx specBad srcValidEx regEx
  have hinv : ¬ (fitsIn specBad.sourceRegion srcValidEx ∧
      fitsIn (placementInDestSpace specBad) regEx ∧
      fitsIn regEx regEx) := by decide
  have hp := h.1.mpr hinv
  exact ⟨hinv, hp, h.2 false destEx srcEx destEx [regEx] hp⟩

/-- C10 Constructor defaults: a freshly constructed filter has in-place
execution disabled, requires exactly two inputs, and has an all-zeros
destination index, so an unconfigured placement puts the source patch at
the origin of the destination index space. -/
theorem constructor_defaults (n : Nat) :
    (mkPasteImageFilter n).inPlace = false ∧
    (mkPasteImageFilter n).numberOfRequiredInputs = 2 ∧
    (mkPasteImageFilter n).destinationIndex = (fun _ => 0) ∧
    ∀ S : Region n,
      (placementInDestSpace
        { destinationIndex := (mkPasteImageFilter n).destinationIndex
          sourceRegion := S }).index = (fun _ => 0) :=
  ⟨rfl, rfl, rfl, fun _ => rfl⟩

/-- C1 Partition invariance: for a fixed placement spec and any two
pairwise-disjoint coverings of the same requested output region, running the
per-partition compositing routine once per partition of each covering
produces identical output grids, independent of partition count, partition
shape, and execution order. -/
theorem partition_invariance {n : Nat} {T : Type} (m : PasteSpec n)
    (inPlaceEligible : Bool) (destImg srcImg out : Image n T) (R : Region n)
    (parts1 parts2 : List (Region n))
    (hd1 : parts1.Pairwise regionsDisjoint) (hd2 : parts2.Pairwise regionsDisjoint)
    (hc1 : covers parts1 R) (hc2 : covers parts2 R) :
    compositeAll m inPlaceEligible destImg srcImg out parts1 =
      compositeAll m inPlaceEligible destImg srcImg out parts2 := by
  funext p
  rw [compositeAll_apply m inPlaceEligible destImg srcImg parts1 out hd1 p,
    compositeAll_apply m inPlaceEligible destImg srcImg parts2 out hd2 p]
  by_cases hr : memRegion R p
  · rw [if_pos ((hc1 p).mp hr), if_pos ((hc2 p).mp hr)]
  · rw [if_neg (fun hx => hr ((hc1 p).mpr hx)), if_neg (fun hx => hr ((hc2 p).mpr hx))]

/-- Witness for C1: the spec's concrete scenario, compositing the (10,10)
requested region in one piece and in four (5,5) quadrants. -/
theorem partition_invariance_witness :
    List.Pairwise regionsDisjoint [regEx] ∧
    List.Pairwise regionsDisjoint quadEx ∧
    covers [regEx] regEx ∧ covers quadEx regEx ∧
    compositeAll specEx false destEx srcEx destEx [regEx] =
      compositeAll specEx false destEx srcEx destEx quadEx :=
  ⟨singleton_pairwise regEx, quadEx_pairwise, singleton_covers regEx, quadEx_covers,
   partition_invariance specEx false destEx srcEx destEx regEx [regEx] quadEx
     (singleton_pairwise regEx) quadEx_pairwise (singleton_covers regEx) quadEx_covers⟩

/-- C3 Full overlap / pure overwrite: a partition for which the crop of the
placement region equals the partition is written entirely from the source
image at the coordinates shifted by `delta`, with no copy reading the
destination; and when the placement region equals the requested output
region, the composited output equals the shifted source over the whole
region for any disjoint covering. -/
theorem full_overlap_pure_overwrite {n : Nat} {T : Type} (m : PasteSpec n)
    (inPlaceEligible : Bool) (destImg srcImg out : Image n T) :
    (∀ P : Region n, crop (placementInDestSpace m) P = some P →
      (∀ op ∈ threadedCopies m inPlaceEligible P, op.src = CopySource.source) ∧
      ∀ p, memRegion P p →
        threadedGenerateData m inPlaceEligible destImg srcImg out P p =
          srcImg (fun d => p d + delta m d)) ∧
    ∀ parts : List (Region n), parts.Pairwise regionsDisjoint →
      covers parts (placementInDestSpace m) →
      ∀ p, memRegion (placementInDestSpace m) p →
        compositeAll m inPlaceEligible destImg srcImg out parts p =
          srcImg (fun d => p d + delta m d) := by
  constructor
  · intro P hP
    constructor
    · intro op hop
      simp only [threadedCopies, hP, eq_self_iff_true, if_true, List.mem_singleton] at hop
      subst hop
      rfl
    · intro p hp
      rw [threadedGenerateData_apply, if_pos hp,
        if_pos (((crop_eq_some_mem hP p).mp hp).1)]
  · intro parts hdisj hcov p hp
    rw [compositeAll_apply m inPlaceEligible destImg srcImg parts out hdisj p,
      if_pos ((hcov p).mp hp), if_pos hp]

/-- Witness for C3: the partition ((3,3),(2,2)) is fully inside the
placement ((3,3),(4,4)) of the spec's scenario, and compositing the
placement region itself in one partition reproduces the source. -/
theorem full_overlap_pure_overwrite_witness :
    crop (placementInDestSpace specEx) (rg2 3 3 2 2) = some (rg2 3 3 2 2) ∧
    (∀ op ∈ threadedCopies specEx false (rg2 3 3 2 2), op.src = CopySource.source) ∧
    threadedGenerateData specEx false destEx srcEx destEx (rg2 3 3 2 2) (ix2 4 4) =
      srcEx (fun d => ix2 4 4 d + delta specEx d) ∧
    compositeAll specEx false destEx srcEx destEx [placementInDestSpace specEx] (ix2 4 4) =
      srcEx (fun d => ix2 4 4 d + delta specEx d) := by
  have h := full_overlap_pure_overwrite (n := 2) (T := Int) specEx false destEx srcEx destEx
  have hcrop : crop (placementInDestSpace specEx) (rg2 3 3 2 2) = some (rg2 3 3 2 2) :=
    crop_eq_some_of (by decide) (by decide) (by decide)
  refine ⟨hcrop, (h.1 _ hcrop).1, (h.1 _ hcrop).2 (ix2 4 4) (by decide), ?_⟩
  exact h.2 [placementInDestSpace specEx] (singleton_pairwise _)
    (singleton_covers _) (ix2 4 4) (by decide)

/-- C4 counterexample: with in-place execution enabled and a partition
disjoint from the placement region, `ThreadedGenerateData` still issues one
`ImageAlgorithm::Copy` call — the partial-overlap branch runs with the
default-constructed (empty) cropped regions — so the claim that no copy call
is issued for such a partition is false. -/
theorem inPlace_noop_counterexample :
    crop (placementInDestSpace specEx) (rg2 0 0 2 2) = none ∧
    threadedCopies specEx true (rg2 0 0 2 2) ≠ [] := by decide

/-- C4 amended: with in-place execution enabled and a NoOverlap partition,
the output buffer is left unchanged (hence byte-identical to the aliased
pre-call destination contents), and every copy call issued for the partition
has an empty destination region, so no cell is written (the code emits one
degenerate copy of a default-constructed region rather than none). -/
theorem noOverlap_inPlace_no_write {n : Nat} {T : Type} (m : PasteSpec n)
    (P : Region n) (hcrop : crop (placementInDestSpace m) P = none)
    (destImg srcImg out : Image n T) :
    threadedGenerateData m true destImg srcImg out P = out ∧
    ∀ op ∈ threadedCopies m true P, ∀ p : Index n, ¬ memRegion op.dstRegion p := by
  obtain ⟨d0⟩ := crop_none_pos_dim hcrop
  constructor
  · funext p
    rw [threadedGenerateData_apply]
    by_cases hp : memRegion P p
    · rw [if_pos hp, if_neg (fun hpl => crop_none_not_mem hcrop p ⟨hpl, hp⟩),
        if_pos rfl]
    · rw [if_neg hp]
  · intro op hop p
    simp only [threadedCopies, hcrop, eq_self_iff_true, if_true, List.mem_singleton] at hop
    subst hop
    exact not_mem_zeroRegion d0 p

/-- Witness for C4's amended statement at a concrete NoOverlap partition. -/
theorem noOverlap_inPlace_no_write_witness :
    crop (placementInDestSpace specEx) (rg2 0 0 2 2) = none ∧
    threadedGenerateData specEx true destEx srcEx srcEx (rg2 0 0 2 2) = srcEx ∧
    ∀ op ∈ threadedCopies specEx true (rg2 0 0 2 2), ∀ p : Index 2,
      ¬ memRegion op.dstRegion p := by
  have hcrop : crop (placementInDestSpace specEx) (rg2 0 0 2 2) = none := by decide
  have h := noOverlap_inPlace_no_write specEx (rg2 0 0 2 2) hcrop destEx srcEx srcEx
  exact ⟨hcrop, h.1, h.2⟩

/-- C5 Partial overlap step order: for a partition that partially overlaps
the placement region, the issued copies are exactly: the destination
background over the whole partition first (omitted when in-place), then
always the source over the cropped overlap, shifted by `delta`. -/
theorem mixed_overlap_step_order {n : Nat} (m : PasteSpec n)
    (inPlaceEligible : Bool) (P c : Region n)
    (hc : crop (placementInDestSpace m) P = some c) (hne : c ≠ P) :
    threadedCopies m inPlaceEligible P =
      (if inPlaceEligible then [] else
        [{ src := CopySource.dest, srcRegion := P, dstRegion := P }]) ++
      [{ src := CopySource.source, srcRegion := translate c (delta m),
         dstRegion := c }] := by
  simp only [threadedCopies, hc, if_neg hne]

/-- Witness for C5: the quadrant ((0,0),(5,5)) partially overlaps the
placement ((3,3),(4,4)); the copy trace is the destination background
followed by the source overwrite of ((3,3),(2,2)). -/
theorem mixed_overlap_step_order_witness :
    crop (placementInDestSpace specEx) (rg2 0 0 5 5) = some (rg2 3 3 2 2) ∧
    rg2 3 3 2 2 ≠ rg2 0 0 5 5 ∧
    threadedCopies specEx false (rg2 0 0 5 5) =
      [{ src := CopySource.dest, srcRegion := rg2 0 0 5 5, dstRegion := rg2 0 0 5 5 },
       { src := CopySource.source, srcRegion := translate (rg2 3 3 2 2) (delta specEx),
         dstRegion := rg2 3 3 2 2 }] := by
  have h1 : crop (placementInDestSpace specEx) (rg2 0 0 5 5) = some (rg2 3 3 2 2) :=
    crop_eq_some_of (by decide) (by decide) (by decide)
  have h2 : (rg2 3 3 2 2 : Region 2) ≠ rg2 0 0 5 5 := by decide
  have h := mixed_overlap_step_order specEx false (rg2 0 0 5 5) (rg2 3 3 2 2) h1 h2
  rw [h]
  exact ⟨h1, h2, rfl⟩

/-- C6 Pure background: when the placement region misses the requested
output region entirely, compositing any disjoint covering of it leaves the
output equal to the destination over the whole requested region (with
in-place aliasing, the untouched output already holds the destination
values). -/
theorem pure_background {n : Nat} {T : Type} (m : PasteSpec n)
    (inPlaceEligible : Bool) (destImg srcImg out : Image n T) (R : Region n)
    (parts : List (Region n))
    (hcrop : crop (placementInDestSpace m) R = none)
    (hdisj : parts.Pairwise regionsDisjoint) (hcov : covers parts R)
    (halias : inPlaceEligible = true → ∀ p, out p = destImg p) :
    ∀ p, memRegion R p →
      compositeAll m inPlaceEligible destImg srcImg out parts p = destImg p := by
  intro p hp
  rw [compositeAll_apply m inPlaceEligible destImg srcImg parts out hdisj p,
    if_pos ((hcov p).mp hp),
    if_neg (fun hpl => crop_none_not_mem hcrop p ⟨hpl, hp⟩)]
  cases inPlaceEligible with
  | true =>
    rw [if_pos rfl]
    exact halias rfl p
  | false =>
    rw [if_neg Bool.false_ne_true]

/-- Witness for C6: a placement at (20,20) misses ((0,0),(10,10)); in-place
compositing of the four quadrants leaves the aliased output equal to the
destination. -/
theorem pure_background_witness :
    crop (placementInDestSpace specFar) regEx = none ∧
    compositeAll specFar true destEx srcEx destEx quadEx (ix2 4 4) = destEx (ix2 4 4) := by
  have hcrop : crop (placementInDestSpace specFar) regEx = none := by decide
  exact ⟨hcrop,
    pure_background specFar true destEx srcEx destEx regEx quadEx hcrop quadEx_pairwise
      quadEx_covers (fun _ _ => rfl) (ix2 4 4) (by decide)⟩

/-- C9 Round trip: for a placement whose destination-space region is inside
the composited output region, reading the composited output over
`Region(destinationIndex, sourceRegion.size)` returns exactly the source
values over the source region (the read-back index shifted by `delta` lies
in the source region and carries its value), for any disjoint covering. -/
theorem round_trip {n : Nat} {T : Type} (m : PasteSpec n) (inPlaceEligible : Bool)
    (destImg srcImg out : Image n T) (R : Region n) (parts : List (Region n))
    (hdisj : parts.Pairwise regionsDisjoint) (hcov : covers parts R)
    (hfit : ∀ p, memRegion (placementInDestSpace m) p → memRegion R p) :
    ∀ p, memRegion { index := m.destinationIndex, size := m.sourceRegion.size } p →
      memRegion m.sourceRegion (fun d => p d + delta m d) ∧
      compositeAll m inPlaceEligible destImg srcImg out parts p =
        srcImg (fun d => p d + delta m d) := by
  intro p hp
  have hpl : memRegion (placementInDestSpace m) p := hp
  constructor
  · intro d
    have h1 : m.destinationIndex d ≤ p d ∧
        p d < m.destinationIndex d + m.sourceRegion.size d := hp d
    show m.sourceRegion.index d ≤ p d + delta m d ∧
      p d + delta m d < m.sourceRegion.index d + m.sourceRegion.size d
    simp only [delta]
    omega
  · rw [compositeAll_apply m inPlaceEligible destImg srcImg parts out hdisj p,
      if_pos ((hcov p).mp (hfit p hpl)), if_pos hpl]

/-- Witness for C9: in the spec's scenario, reading back the pasted region
at (3,3) over the quadrant covering returns the source value. -/
theorem round_trip_witness :
    memRegion specEx.sourceRegion (fun d => ix2 3 3 d + delta specEx d) ∧
    compositeAll specEx false destEx srcEx destEx quadEx (ix2 3 3) =
      srcEx (fun d => ix2 3 3 d + delta specEx d) := by
  have hfit : ∀ p, memRegion (placementInDestSpace specEx) p → memRegion regEx p := by
    intro p
    simp only [memRegion, placementInDestSpace, specEx, regEx, rg2, ix2,
      Fin.forall_fin_two]
    simp only [Fin.isValue, one_ne_zero, reduceIte]
    omega
  exact round_trip specEx false destEx srcEx destEx regEx quadEx quadEx_pairwise
    quadEx_covers hfit (ix2 3 3) (by decide)

end PasteFilter
